import Mathlib

/-!
Verification of the streaming decode-filter-sink pipeline of the
language-in-genetics repository.

The repository contains three Go variants of the same pipeline:
* `jsonreader` console variant (src/unnamed/part_001): filter records by
  `container-title` and print matches to stdout;
* file-tree variant (src/unnamed/part_002): filter and write each match to
  `<out>/<journal>/<doi>/metadata.json`;
* `pgjsontool` relational variant (src/cmd/pgjsontool/main.go): insert every
  decoded record into the `articles` table.

The embedding models Go's `encoding/json` streaming decoder at the level of
JSON tokens: `decoder.Token()` pops one token, `decoder.More()` peeks whether
the next token closes the current array/object, and `decoder.Decode` parses
one complete value from the token stream.  A malformed array element is
modelled by the single token `Jtok.bad`: `Decode` fails on it and — matching
`encoding/json`, which stores a syntax error in the decoder and never
advances past it — a failed `Decode` does not consume input.
-/

set_option maxHeartbeats 1000000

namespace LangGen

/-- A JSON token as returned by Go's `json.Decoder.Token`.  `bad` stands for
a malformed fragment: `Token`/`Decode` fail when they reach it. -/
inductive Jtok where
  | lbrace
  | rbrace
  | lbrack
  | rbrack
  | jstr (s : String)
  | jnum (n : Int)
  | jbool (b : Bool)
  | jnull
  | bad
deriving DecidableEq

/-- A JSON value, the shape Go's `map[string]interface{}` / `interface{}`
decoding produces (numbers simplified to integers; none of the interpreted
fields are numeric). -/
inductive Json where
  | null
  | jbool (b : Bool)
  | jnum (n : Int)
  | jstr (s : String)
  | jarr (elems : List Json)
  | jobj (fields : List (String × Json))

mutual

/-- Token serialization of a JSON value (the token stream `json.Decoder`
yields while reading the value's text). -/
def Json.toToks : Json → List Jtok
  | .null => [Jtok.jnull]
  | .jbool b => [Jtok.jbool b]
  | .jnum n => [Jtok.jnum n]
  | .jstr s => [Jtok.jstr s]
  | .jarr xs => Jtok.lbrack :: listToks xs ++ [Jtok.rbrack]
  | .jobj fs => Jtok.lbrace :: fieldToks fs ++ [Jtok.rbrace]

/-- Token serialization of the elements of a JSON array. -/
def listToks : List Json → List Jtok
  | [] => []
  | x :: xs => x.toToks ++ listToks xs

/-- Token serialization of the fields of a JSON object. -/
def fieldToks : List (String × Json) → List Jtok
  | [] => []
  | (k, v) :: fs => Jtok.jstr k :: v.toToks ++ fieldToks fs

end

mutual

/-- Fuel-indexed parser for one JSON value from a token stream; models one
successful `decoder.Decode` call.  `none` is a decode error (notably on a
`bad` token). -/
def decodeValue : Nat → List Jtok → Option (Json × List Jtok)
  | 0, _ => none
  | _ + 1, Jtok.jnull :: ts => some (Json.null, ts)
  | _ + 1, Jtok.jbool b :: ts => some (Json.jbool b, ts)
  | _ + 1, Jtok.jnum n :: ts => some (Json.jnum n, ts)
  | _ + 1, Jtok.jstr s :: ts => some (Json.jstr s, ts)
  | f + 1, Jtok.lbrack :: ts =>
    match decodeArr f ts with
    | some (xs, r) => some (Json.jarr xs, r)
    | none => none
  | f + 1, Jtok.lbrace :: ts =>
    match decodeObj f ts with
    | some (fs, r) => some (Json.jobj fs, r)
    | none => none
  | _ + 1, _ => none

/-- Parses array elements up to the closing `]`. -/
def decodeArr : Nat → List Jtok → Option (List Json × List Jtok)
  | 0, _ => none
  | f + 1, ts =>
    if ts.head? = some Jtok.rbrack then some ([], ts.tail)
    else
      match decodeValue f ts with
      | none => none
      | some (v, ts1) =>
        match decodeArr f ts1 with
        | none => none
        | some (vs, ts2) => some (v :: vs, ts2)

/-- Parses object fields up to the closing `\x7d`. -/
def decodeObj : Nat → List Jtok → Option (List (String × Json) × List Jtok)
  | 0, _ => none
  | f + 1, ts =>
    if ts.head? = some Jtok.rbrace then some ([], ts.tail)
    else
      match ts with
      | Jtok.jstr k :: ts0 =>
        match decodeValue f ts0 with
        | none => none
        | some (v, ts1) =>
          match decodeObj f ts1 with
          | none => none
          | some (fs, ts2) => some ((k, v) :: fs, ts2)
      | _ => none

end

/-- Models `decoder.More()`: peek whether the next token closes the current
array or object (Go's `More` peeks one byte and returns false on `]`, on
`\x7d`, or at end of input). -/
def decMore : List Jtok → Bool
  | [] => false
  | t :: _ => !(t == Jtok.rbrack || t == Jtok.rbrace)

/-- The envelope phase shared by all three `processFile` variants
(src/unnamed/part_001:56-75, src/unnamed/part_002:93-112,
src/cmd/pgjsontool/main.go:123-142): three `decoder.Token()` calls.  Only a
failing `Token()` call (end of stream or malformed token) or a second token
different from the string `"items"` is an error; the first and third tokens
are consumed without inspection. -/
def readEnvelope (ts : List Jtok) : Except String (List Jtok) :=
  match ts with
  | [] => Except.error "error reading opening token"
  | Jtok.bad :: _ => Except.error "error reading opening token"
  | _ :: ts1 =>
    match ts1 with
    | [] => Except.error "error reading items key"
    | Jtok.bad :: _ => Except.error "error reading items key"
    | t2 :: ts2 =>
      if t2 = Jtok.jstr "items" then
        match ts2 with
        | [] => Except.error "error reading items array opening"
        | Jtok.bad :: _ => Except.error "error reading items array opening"
        | _ :: ts3 => Except.ok ts3
      else Except.error "expected items key"

/-- The target set compiled into part_001 and part_002
(`var targetJournals = map[string]bool`). -/
def targetJournals : List (String × Bool) :=
  [("Journal of Genetic Counselling", true),
   ("European Journal of Human Genetics", true),
   ("American Journal of Human Genetics", true),
   ("Heredity", true),
   ("Human Genetics", true),
   ("Journal of Community Genetics", true),
   ("Familial Cancer", true),
   ("Human Genetics and Genomic Advances", true),
   ("Human Genomics", true),
   ("Genetic Epidemiology", true)]

/-- Go's `targetJournals[journal]`: map lookup returning the zero value
`false` when the key is absent. -/
def isTarget (name : String) : Bool :=
  (targetJournals.lookup name).getD false

/-- Go's `item["key"]` on a decoded `map[string]interface\x7b\x7d` (records in
this repository have distinct field names, so first-match lookup agrees with
Go's last-wins map construction). -/
def lookupField (fields : List (String × Json)) (k : String) : Option Json :=
  match fields with
  | [] => none
  | (k1, v) :: rest => if k1 = k then some v else lookupField rest k

/-- The record predicate of part_001:88-99 / part_002:125-132: the
`container-title` field must be an array, non-empty, with a string first
element that the target set enables; every malformed shape is a silent
non-match. -/
def recordMatch (item : List (String × Json)) : Option String :=
  match lookupField item "container-title" with
  | some (Json.jarr (first :: _)) =>
    match first with
    | Json.jstr journal => if isTarget journal then some journal else none
    | _ => none
  | _ => none

/-- Models `decoder.Decode(&item)` with `item : map[string]interface\x7b\x7d`
(part_001:79-80, part_002:116-117): parse one value; a non-object value is an
unmarshal error.  The fuel `ts.length` always suffices for a syntactically
valid value (`decodeValue_toToks` below). -/
def decodeMapItem (ts : List Jtok) : Option (List (String × Json) × List Jtok) :=
  match decodeValue ts.length ts with
  | some (Json.jobj fs, ts1) => some (fs, ts1)
  | _ => none

/-- Outcome of a streaming loop: normal exhaustion, the part_001/part_002
abort on a decode error, or fuel exhaustion (which for `pgLoop` models
non-termination, see `pgNeverCompletes`). -/
inductive LoopEnd where
  | completed
  | decodeError
  | fuelOut
deriving DecidableEq

/-- The streaming loop of part_001:78-101: decode, filter with `recordMatch`,
emit matches to stdout (modelled as the returned list); a decode error logs
and returns from `processFile` (outcome `decodeError`). -/
def loop1 : Nat → List Jtok → List Json → List Json × LoopEnd
  | 0, ts, acc =>
    if decMore ts then (acc.reverse, LoopEnd.fuelOut) else (acc.reverse, LoopEnd.completed)
  | f + 1, ts, acc =>
    if decMore ts then
      match decodeMapItem ts with
      | some (item, ts1) =>
        match recordMatch item with
        | some _ => loop1 f ts1 (Json.jobj item :: acc)
        | none => loop1 f ts1 acc
      | none => (acc.reverse, LoopEnd.decodeError)
    else (acc.reverse, LoopEnd.completed)

/-- part_001's `processFile`: envelope errors are returned to the walker
(which logs them); the loop result is otherwise returned as success, also
after a record-decode error (`return nil`). -/
def processFile1 (f : Nat) (ts : List Jtok) : Except String (List Json × LoopEnd) :=
  (readEnvelope ts).map (fun body => loop1 f body [])

/-- Replaces spaces then slashes with underscores
(part_002:40-42, `strings.ReplaceAll` twice; with one-character patterns each
`ReplaceAll` is exactly a character map). -/
def sanitizePath (s : String) : String :=
  String.mk ((s.data.map (fun c => if c = ' ' then '_' else c)).map
    (fun c => if c = '/' then '_' else c))

/-- The output path of one record relative to the output directory
(part_002:53-59, `filepath.Join(outputDir, sanitizePath(journal),
sanitizePath(doi))` then `filepath.Join(dirPath, "metadata.json")`). -/
def mdPath (journal doi : String) : String :=
  sanitizePath journal ++ "/" ++ sanitizePath doi ++ "/" ++ "metadata.json"

/-- The file tree written by the File-Tree Sink: association list from path
to file content, `fsWrite` overwriting in place.  Content is the structured
record value; `json.MarshalIndent` of a decoded map is deterministic (keys
sorted), so equal values mean byte-identical files. -/
abbrev Fs := List (String × Json)

/-- Write (or overwrite) one file. -/
def fsWrite (fs : Fs) (p : String) (c : Json) : Fs :=
  match fs with
  | [] => [(p, c)]
  | (q, d) :: rest => if q = p then (p, c) :: rest else (q, d) :: fsWrite rest p c

/-- Go's `doi, ok := item["DOI"].(string)`:
the type assertion of part_002:47. -/
def doiField (item : List (String × Json)) : Option String :=
  match lookupField item "DOI" with
  | some (Json.jstr d) => some d
  | _ => none

/-- part_002:45-74 `writeJSONToFile`: reject a missing, non-string or empty
`DOI`; otherwise create the directories (implicit in the path-keyed map) and
write `metadata.json`, overwriting any previous content. -/
def writeJSONToFile (item : List (String × Json)) (journal outputDir : String)
    (fs : Fs) : Except String Fs :=
  match doiField item with
  | none => Except.error "missing or invalid DOI"
  | some doi =>
    if doi = "" then Except.error "missing or invalid DOI"
    else Except.ok (fsWrite fs (outputDir ++ "/" ++ mdPath journal doi) (Json.jobj item))

/-- Sink state of a part_002 run: the file tree, the records handed to
`writeJSONToFile` (the sink's accept calls), and the count of logged
per-record write warnings. -/
structure Run2State where
  fs : Fs
  forwarded : List (List (String × Json))
  warnings : Nat

/-- One iteration body of part_002:125-133 for a decoded record: on a match,
call `writeJSONToFile`; a write error is logged (one warning) and the loop
continues. -/
def step2 (outputDir : String) (st : Run2State) (item : List (String × Json)) :
    Run2State :=
  match recordMatch item with
  | some journal =>
    match writeJSONToFile item journal outputDir st.fs with
    | Except.ok fs1 =>
      { fs := fs1, forwarded := st.forwarded ++ [item], warnings := st.warnings }
    | Except.error _ =>
      { fs := st.fs, forwarded := st.forwarded ++ [item], warnings := st.warnings + 1 }
  | none => st

/-- The streaming loop of part_002:115-134: same decode policy as part_001,
sink actions per `step2`. -/
def loop2 (outputDir : String) : Nat → List Jtok → Run2State → Run2State × LoopEnd
  | 0, ts, st =>
    if decMore ts then (st, LoopEnd.fuelOut) else (st, LoopEnd.completed)
  | f + 1, ts, st =>
    if decMore ts then
      match decodeMapItem ts with
      | some (item, ts1) => loop2 outputDir f ts1 (step2 outputDir st item)
      | none => (st, LoopEnd.decodeError)
    else (st, LoopEnd.completed)

/-- part_002's `processFile`. -/
def processFile2 (outputDir : String) (f : Nat) (ts : List Jtok) (st : Run2State) :
    Except String (Run2State × LoopEnd) :=
  (readEnvelope ts).map (fun body => loop2 outputDir f body st)

/-- The per-item fold that `loop2` performs on a well-formed archive
(`loop2_ok` below). -/
def runItems (outputDir : String) (items : List (List (String × Json)))
    (st : Run2State) : Run2State :=
  items.foldl (step2 outputDir) st

/-- The streaming loop of pgjsontool main.go:154-174: every decoded record is
inserted into `articles` with no filtering; on a decode error the loop logs
and `continue`s.  Matching `encoding/json` — which stores the syntax error in
the decoder and does not advance past the malformed data, while `More()`
still peeks the unconsumed byte — a failed decode leaves the stream in
place, so the loop re-enters the same state and only fuel bounds it. -/
def pgLoop : Nat → List Jtok → List Json → List Json × LoopEnd
  | 0, ts, acc =>
    if decMore ts then (acc.reverse, LoopEnd.fuelOut) else (acc.reverse, LoopEnd.completed)
  | f + 1, ts, acc =>
    if decMore ts then
      match decodeValue ts.length ts with
      | some (v, ts1) => pgLoop f ts1 (v :: acc)
      | none => pgLoop f ts acc
    else (acc.reverse, LoopEnd.completed)

/-- pgjsontool's `processFile`: envelope errors returned to the walker,
otherwise the inserted rows and the loop outcome. -/
def processFilePg (f : Nat) (ts : List Jtok) : Except String (List Json × LoopEnd) :=
  (readEnvelope ts).map (fun body => pgLoop f body [])

/-- The relational loop diverges on this stream: whatever the fuel, it never
reaches a terminal `completed`/`decodeError` state. -/
def pgNeverCompletes (ts : List Jtok) : Prop :=
  ∀ f acc, (pgLoop f ts acc).2 = LoopEnd.fuelOut

/-- The pure decoder view shared by the three variants (the
`for decoder.More() \x7b decode \x7d` skeleton): the lazy sequence of raw
record payloads of §4.1 of the spec. -/
def decodeStream : Nat → List Jtok → List Json × LoopEnd
  | 0, ts =>
    if decMore ts then ([], LoopEnd.fuelOut) else ([], LoopEnd.completed)
  | f + 1, ts =>
    if decMore ts then
      match decodeValue ts.length ts with
      | some (v, ts1) =>
        let r := decodeStream f ts1
        (v :: r.1, r.2)
      | none => ([], LoopEnd.decodeError)
    else ([], LoopEnd.completed)

/-- Envelope validation followed by the record stream: the Archive Decoder. -/
def decodeArchive (f : Nat) (ts : List Jtok) : Except String (List Json × LoopEnd) :=
  (readEnvelope ts).map (decodeStream f)

/-- Token stream of an archive `{"items": [r1, ..., rn]}`. -/
def envTokens (items : List Json) : List Jtok :=
  Jtok.lbrace :: Jtok.jstr "items" :: Jtok.lbrack ::
    (listToks items ++ [Jtok.rbrack, Jtok.rbrace])

/-- One path visited by `filepath.Walk`: either a successfully visited file
(with the token stream its decompressed content yields) or a path whose
stat/readdir failed, for which Walk passes the error to the callback. -/
inductive WalkEntry where
  | file (path : String) (content : List Jtok)
  | errPath (path : String)

/-- Go's `strings.HasSuffix`. -/
def goHasSuffix (s suffix : String) : Bool :=
  suffix.data.isSuffixOf s.data

/-- part_001:111-129 `filepath.Walk` callback: a traversal error on any path
is returned and aborts the walk; non-`.json.gz` paths are skipped;
`processFile` errors are logged and the walk continues. -/
def walkRun1 (f : Nat) : List WalkEntry → Except String (List Json)
  | [] => Except.ok []
  | WalkEntry.errPath p :: _ => Except.error p
  | WalkEntry.file p content :: rest =>
    if goHasSuffix p ".json.gz" then
      let out := match processFile1 f content with
        | Except.ok r => r.1
        | Except.error _ => []
      (walkRun1 f rest).map (fun more => out ++ more)
    else walkRun1 f rest

/-- part_001:106-134 `main`: `log.Fatalf` (exit status 1) exactly when the
walk returns an error, else normal exit 0. -/
def exitCode1 (f : Nat) (entries : List WalkEntry) : Nat :=
  match walkRun1 f entries with
  | Except.ok _ => 0
  | Except.error _ => 1

/-- part_002:150-167 walk: same policy, threading the sink state. -/
def walkRun2 (outputDir : String) (f : Nat) :
    List WalkEntry → Run2State → Except String Run2State
  | [], st => Except.ok st
  | WalkEntry.errPath p :: _, _ => Except.error p
  | WalkEntry.file p content :: rest, st =>
    if goHasSuffix p ".json.gz" then
      let st1 := match processFile2 outputDir f content st with
        | Except.ok r => r.1
        | Except.error _ => st
      walkRun2 outputDir f rest st1
    else walkRun2 outputDir f rest st

/-- part_002:139-172 `main`: fatal when creating the output directory fails
or when the walk returns an error; exit 0 otherwise. -/
def exitCode2 (mkdirOk : Bool) (outputDir : String) (f : Nat)
    (entries : List WalkEntry) : Nat :=
  if mkdirOk then
    match walkRun2 outputDir f entries { fs := [], forwarded := [], warnings := 0 } with
    | Except.ok _ => 0
    | Except.error _ => 1
  else 1

/-- The ten default journal names of pgjsontool main.go:75-86. -/
def defaultJournals : List String :=
  ["Journal of Genetic Counselling",
   "European Journal of Human Genetics",
   "The American Journal of Human Genetics",
   "Heredity",
   "Human Genetics",
   "Journal of Community Genetics",
   "Familial Cancer",
   "Human Genetics and Genomic Advances",
   "Human Genomics",
   "Genetic Epidemiology"]

/-- pgjsontool main.go:65-104 `initializeJournals`: count the rows of the
`journals` table; only when the count is zero insert the ten defaults (each
insert appends a row; on an empty table the distinct default names violate no
uniqueness constraint, so every insert succeeds). -/
def initializeJournals (journals : List String) : List String :=
  if journals.length = 0 then journals ++ defaultJournals else journals

/-! ### Serializer facts -/

theorem toToks_length_pos (v : Json) : 0 < v.toToks.length := by
  cases v <;> simp [Json.toToks]

theorem toToks_head_ne_rbrack (v : Json) (ts : List Jtok) :
    ¬ (v.toToks ++ ts).head? = some Jtok.rbrack := by
  cases v <;> simp [Json.toToks]

theorem toToks_head_ne_rbrace (v : Json) (ts : List Jtok) :
    ¬ (v.toToks ++ ts).head? = some Jtok.rbrace := by
  cases v <;> simp [Json.toToks]

theorem decMore_toToks (v : Json) (ts : List Jtok) :
    decMore (v.toToks ++ ts) = true := by
  cases v <;> simp [Json.toToks, decMore]

theorem decodeValue_bad (f : Nat) (ts : List Jtok) :
    decodeValue f (Jtok.bad :: ts) = none := by
  cases f <;> simp [decodeValue]

theorem decMore_bad (ts : List Jtok) : decMore (Jtok.bad :: ts) = true := by
  simp [decMore]

/-! ### Round trip: the fuelled parser recovers any serialized value -/

theorem decodeRT (f : Nat) :
    (∀ (v : Json) (rest : List Jtok), v.toToks.length ≤ f →
      decodeValue f (v.toToks ++ rest) = some (v, rest)) ∧
    (∀ (xs : List Json) (rest : List Jtok), (listToks xs).length < f →
      decodeArr f (listToks xs ++ Jtok.rbrack :: rest) = some (xs, rest)) ∧
    (∀ (fls : List (String × Json)) (rest : List Jtok), (fieldToks fls).length < f →
      decodeObj f (fieldToks fls ++ Jtok.rbrace :: rest) = some (fls, rest)) := by
  induction f using Nat.strong_induction_on with
  | _ f ih =>
  refine ⟨?_, ?_, ?_⟩
  · intro v rest hlen
    cases f with
    | zero =>
      have := toToks_length_pos v
      omega
    | succ f1 =>
      have hlt : f1 < f1 + 1 := Nat.lt_succ_self f1
      cases v with
      | null => simp [Json.toToks, decodeValue]
      | jbool b => simp [Json.toToks, decodeValue]
      | jnum n => simp [Json.toToks, decodeValue]
      | jstr s => simp [Json.toToks, decodeValue]
      | jarr xs =>
        have hx : (listToks xs).length < f1 := by
          simp [Json.toToks] at hlen
          omega
        have harr := (ih f1 hlt).2.1 xs rest hx
        simp [Json.toToks, decodeValue, List.append_assoc, harr]
      | jobj fls =>
        have hx : (fieldToks fls).length < f1 := by
          simp [Json.toToks] at hlen
          omega
        have hobj := (ih f1 hlt).2.2 fls rest hx
        simp [Json.toToks, decodeValue, List.append_assoc, hobj]
  · intro xs rest hlen
    cases f with
    | zero => omega
    | succ f1 =>
      have hlt : f1 < f1 + 1 := Nat.lt_succ_self f1
      cases xs with
      | nil => simp [listToks, decodeArr]
      | cons x xs1 =>
        have hlen1 : x.toToks.length + (listToks xs1).length < f1 + 1 := by
          simp [listToks] at hlen
          omega
        have hx : x.toToks.length ≤ f1 := by
          have := toToks_length_pos x
          omega
        have hxs : (listToks xs1).length < f1 := by
          have := toToks_length_pos x
          omega
        have hv := (ih f1 hlt).1 x (listToks xs1 ++ Jtok.rbrack :: rest) hx
        have ha := (ih f1 hlt).2.1 xs1 rest hxs
        rw [listToks, List.append_assoc]
        rw [decodeArr, if_neg (toToks_head_ne_rbrack x _), hv]
        simp [ha]
  · intro fls rest hlen
    cases f with
    | zero => omega
    | succ f1 =>
      have hlt : f1 < f1 + 1 := Nat.lt_succ_self f1
      cases fls with
      | nil => simp [fieldToks, decodeObj]
      | cons kv fls1 =>
        obtain ⟨k, v⟩ := kv
        have hlen1 : v.toToks.length + (fieldToks fls1).length + 1 < f1 + 1 := by
          simp [fieldToks] at hlen
          omega
        have hv : v.toToks.length ≤ f1 := by omega
        have hfls : (fieldToks fls1).length < f1 := by omega
        have h1 := (ih f1 hlt).1 v (fieldToks fls1 ++ Jtok.rbrace :: rest) hv
        have h2 := (ih f1 hlt).2.2 fls1 rest hfls
        rw [fieldToks]
        rw [List.cons_append, List.cons_append, List.append_assoc]
        rw [decodeObj]
        rw [if_neg (by simp)]
        simp [h1, h2]

/-- `decoder.Decode` with the fuel the loops pass (the length of the
remaining stream) succeeds on any serialized value. -/
theorem decodeValue_toToks (v : Json) (rest : List Jtok) :
    decodeValue (v.toToks ++ rest).length (v.toToks ++ rest) = some (v, rest) := by
  refine (decodeRT _).1 v rest ?_
  simp

/-- `Decode(&item)` into a Go map succeeds on a serialized object. -/
theorem decodeMapItem_toToks (r : List (String × Json)) (T : List Jtok) :
    decodeMapItem ((Json.jobj r).toToks ++ T) = some (r, T) := by
  unfold decodeMapItem
  rw [decodeValue_toToks]

/-! ### Envelope and stream lemmas -/

theorem readEnvelope_env (items : List Json) :
    readEnvelope (envTokens items) =
      Except.ok (listToks items ++ [Jtok.rbrack, Jtok.rbrace]) := rfl

theorem decodeStream_ok (items : List Json) (rest : List Jtok) (f : Nat)
    (hf : items.length ≤ f) :
    decodeStream f (listToks items ++ Jtok.rbrack :: rest) =
      (items, LoopEnd.completed) := by
  induction items generalizing f with
  | nil => cases f <;> simp [listToks, decodeStream, decMore]
  | cons x items ih =>
    cases f with
    | zero => simp at hf
    | succ f1 =>
      have hlen : items.length ≤ f1 := by
        simp at hf
        omega
      rw [listToks, List.append_assoc, decodeStream,
        if_pos (decMore_toToks x _), decodeValue_toToks]
      simp [ih f1 hlen]

theorem pgLoop_ok (items : List Json) (rest : List Jtok) (f : Nat)
    (acc : List Json) (hf : items.length ≤ f) :
    pgLoop f (listToks items ++ Jtok.rbrack :: rest) acc =
      (acc.reverse ++ items, LoopEnd.completed) := by
  induction items generalizing f acc with
  | nil => cases f <;> simp [listToks, pgLoop, decMore]
  | cons x items ih =>
    cases f with
    | zero => simp at hf
    | succ f1 =>
      have hlen : items.length ≤ f1 := by
        simp at hf
        omega
      rw [listToks, List.append_assoc, pgLoop,
        if_pos (decMore_toToks x _), decodeValue_toToks]
      simp [ih f1 (x :: acc) hlen]

theorem pgLoop_bad (f : Nat) :
    ∀ (objs : List Json) (rest : List Jtok) (acc : List Json),
      (pgLoop f (listToks objs ++ Jtok.bad :: rest) acc).2 = LoopEnd.fuelOut := by
  induction f using Nat.strong_induction_on with
  | _ f ih =>
  intro objs rest acc
  cases f with
  | zero =>
    cases objs with
    | nil => simp [listToks, pgLoop, decMore]
    | cons x objs1 =>
      rw [listToks, List.append_assoc, pgLoop, if_pos (decMore_toToks x _)]
  | succ f1 =>
    have hlt : f1 < f1 + 1 := Nat.lt_succ_self f1
    cases objs with
    | nil =>
      rw [listToks, List.nil_append, pgLoop, if_pos (decMore_bad rest),
        decodeValue_bad]
      have := ih f1 hlt [] rest acc
      simpa [listToks] using this
    | cons x objs1 =>
      rw [listToks, List.append_assoc, pgLoop, if_pos (decMore_toToks x _),
        decodeValue_toToks]
      exact ih f1 hlt objs1 rest (x :: acc)

theorem loop1_ok (items : List (List (String × Json))) (rest : List Jtok)
    (f : Nat) (acc : List Json) (hf : items.length ≤ f) :
    loop1 f (listToks (items.map Json.jobj) ++ Jtok.rbrack :: rest) acc =
      (acc.reverse ++
        (items.filter (fun r => (recordMatch r).isSome)).map Json.jobj,
       LoopEnd.completed) := by
  induction items generalizing f acc with
  | nil => cases f <;> simp [listToks, loop1, decMore]
  | cons r items ih =>
    cases f with
    | zero => simp at hf
    | succ f1 =>
      have hlen : items.length ≤ f1 := by
        simp at hf
        omega
      rw [List.map_cons, listToks, List.append_assoc, loop1,
        if_pos (decMore_toToks (Json.jobj r) _), decodeMapItem_toToks]
      cases hm : recordMatch r with
      | some j => simp [hm, ih f1 (Json.jobj r :: acc) hlen, List.filter_cons]
      | none => simp [hm, ih f1 acc hlen, List.filter_cons]

theorem loop1_bad (objs : List (List (String × Json))) (rest : List Jtok)
    (f : Nat) (acc : List Json) (hf : objs.length < f) :
    loop1 f (listToks (objs.map Json.jobj) ++ Jtok.bad :: rest) acc =
      (acc.reverse ++
        (objs.filter (fun r => (recordMatch r).isSome)).map Json.jobj,
       LoopEnd.decodeError) := by
  induction objs generalizing f acc with
  | nil =>
    cases f with
    | zero => omega
    | succ f1 =>
      simp [listToks, loop1, decMore, decodeMapItem, decodeValue_bad]
  | cons r objs1 ih =>
    cases f with
    | zero => omega
    | succ f1 =>
      have hlen : objs1.length < f1 := by
        simp at hf
        omega
      rw [List.map_cons, listToks, List.append_assoc, loop1,
        if_pos (decMore_toToks (Json.jobj r) _), decodeMapItem_toToks]
      cases hm : recordMatch r with
      | some j => simp [hm, ih f1 (Json.jobj r :: acc) hlen, List.filter_cons]
      | none => simp [hm, ih f1 acc hlen, List.filter_cons]

theorem runItems_cons (outputDir : String) (r : List (String × Json))
    (items : List (List (String × Json))) (st : Run2State) :
    runItems outputDir (r :: items) st =
      runItems outputDir items (step2 outputDir st r) := rfl

theorem runItems_append (outputDir : String)
    (a b : List (List (String × Json))) (st : Run2State) :
    runItems outputDir (a ++ b) st =
      runItems outputDir b (runItems outputDir a st) := by
  simp [runItems, List.foldl_append]

theorem loop2_ok (outputDir : String) (items : List (List (String × Json)))
    (rest : List Jtok) (f : Nat) (st : Run2State) (hf : items.length ≤ f) :
    loop2 outputDir f (listToks (items.map Json.jobj) ++ Jtok.rbrack :: rest) st =
      (runItems outputDir items st, LoopEnd.completed) := by
  induction items generalizing f st with
  | nil => cases f <;> simp [listToks, loop2, decMore, runItems]
  | cons r items ih =>
    cases f with
    | zero => simp at hf
    | succ f1 =>
      have hlen : items.length ≤ f1 := by
        simp at hf
        omega
      rw [List.map_cons, listToks, List.append_assoc, loop2,
        if_pos (decMore_toToks (Json.jobj r) _), decodeMapItem_toToks]
      simp [ih f1 (step2 outputDir st r) hlen, runItems_cons]

theorem loop2_bad (outputDir : String) (objs : List (List (String × Json)))
    (rest : List Jtok) (f : Nat) (st : Run2State) (hf : objs.length < f) :
    loop2 outputDir f (listToks (objs.map Json.jobj) ++ Jtok.bad :: rest) st =
      (runItems outputDir objs st, LoopEnd.decodeError) := by
  induction objs generalizing f st with
  | nil =>
    cases f with
    | zero => omega
    | succ f1 =>
      simp [listToks, loop2, decMore, decodeMapItem, decodeValue_bad, runItems]
  | cons r objs1 ih =>
    cases f with
    | zero => omega
    | succ f1 =>
      have hlen : objs1.length < f1 := by
        simp at hf
        omega
      rw [List.map_cons, listToks, List.append_assoc, loop2,
        if_pos (decMore_toToks (Json.jobj r) _), decodeMapItem_toToks]
      simp [ih f1 (step2 outputDir st r) hlen, runItems_cons]

/-! ### Sink-state algebra for the File-Tree Sink -/

theorem fsWrite_idem (fs : Fs) (p : String) (c : Json) :
    fsWrite (fsWrite fs p c) p c = fsWrite fs p c := by
  induction fs with
  | nil => simp [fsWrite]
  | cons qd rest ih =>
    obtain ⟨q, d⟩ := qd
    by_cases h : q = p
    · subst h
      simp [fsWrite]
    · simp [fsWrite, h, ih]

/-- One `step2` acts on the file tree independently of the forwarded list and
warning count, which it only extends additively. -/
theorem step2_split (outputDir : String) (st : Run2State)
    (item : List (String × Json)) :
    step2 outputDir st item =
      ⟨(step2 outputDir ⟨st.fs, [], 0⟩ item).fs,
       st.forwarded ++ (step2 outputDir ⟨st.fs, [], 0⟩ item).forwarded,
       st.warnings + (step2 outputDir ⟨st.fs, [], 0⟩ item).warnings⟩ := by
  obtain ⟨fs, fwd, w⟩ := st
  unfold step2
  cases hm : recordMatch item with
  | none => simp
  | some j =>
    cases hw : writeJSONToFile item j outputDir fs <;> simp [hw]

theorem runItems_split (outputDir : String)
    (items : List (List (String × Json))) (fs : Fs)
    (fwd : List (List (String × Json))) (w : Nat) :
    runItems outputDir items ⟨fs, fwd, w⟩ =
      ⟨(runItems outputDir items ⟨fs, [], 0⟩).fs,
       fwd ++ (runItems outputDir items ⟨fs, [], 0⟩).forwarded,
       w + (runItems outputDir items ⟨fs, [], 0⟩).warnings⟩ := by
  induction items generalizing fs fwd w with
  | nil => simp [runItems]
  | cons r items ih =>
    rw [runItems_cons, runItems_cons, step2_split outputDir ⟨fs, fwd, w⟩ r]
    rcases hstep : step2 outputDir ⟨fs, [], 0⟩ r with ⟨sfs, sfwd, sw⟩
    dsimp only
    rw [ih sfs (fwd ++ sfwd) (w + sw), ih sfs sfwd sw]
    simp [List.append_assoc, Nat.add_assoc]

/-- The records handed to `writeJSONToFile` during a run are exactly the
matched records, in order, whether or not each write succeeds. -/
theorem runItems_forwarded (outputDir : String)
    (items : List (List (String × Json))) (st : Run2State) :
    (runItems outputDir items st).forwarded =
      st.forwarded ++ items.filter (fun r => (recordMatch r).isSome) := by
  induction items generalizing st with
  | nil => simp [runItems]
  | cons r items ih =>
    rw [runItems_cons, ih]
    cases hm : recordMatch r with
    | none => simp [step2, hm, List.filter_cons]
    | some j =>
      cases hw : writeJSONToFile r j outputDir st.fs <;>
        simp [step2, hm, hw, List.filter_cons]

/-! ### Walker lemmas -/

/-- Does `filepath.Walk` hand this entry to the callback as a traversal
error? -/
def isErrEntry : WalkEntry → Bool
  | WalkEntry.errPath _ => true
  | WalkEntry.file _ _ => false

theorem exitCode1_char (f : Nat) (entries : List WalkEntry) :
    exitCode1 f entries = if entries.any isErrEntry then 1 else 0 := by
  induction entries with
  | nil => simp [exitCode1, walkRun1, isErrEntry]
  | cons e rest ih =>
    cases e with
    | errPath p => simp [exitCode1, walkRun1, isErrEntry]
    | file p content =>
      unfold exitCode1 at ih ⊢
      unfold walkRun1
      by_cases hs : goHasSuffix p ".json.gz"
      · simp only [hs, if_true]
        cases hw : walkRun1 f rest with
        | ok out => simp [hw, isErrEntry, List.any_cons] at ih ⊢; exact ih
        | error e1 => simp [hw, isErrEntry, List.any_cons] at ih ⊢; exact ih
      · simp only [hs, if_false]
        simpa [isErrEntry, List.any_cons] using ih

theorem exitCode2_char (mkdirOk : Bool) (outputDir : String) (f : Nat)
    (entries : List WalkEntry) :
    exitCode2 mkdirOk outputDir f entries =
      if mkdirOk then (if entries.any isErrEntry then 1 else 0) else 1 := by
  cases mkdirOk with
  | false => simp [exitCode2]
  | true =>
    simp only [exitCode2, if_true]
    have walk2 : ∀ (es : List WalkEntry) (st : Run2State),
        (∃ st1, walkRun2 outputDir f es st = Except.ok st1) ↔
          es.any isErrEntry = false := by
      intro es
      induction es with
      | nil => intro st; simp [walkRun2, isErrEntry]
      | cons e rest ih =>
        intro st
        cases e with
        | errPath p => simp [walkRun2, isErrEntry]
        | file p content =>
          unfold walkRun2
          by_cases hs : goHasSuffix p ".json.gz"
          · simp only [hs, if_true]
            simpa [isErrEntry, List.any_cons] using ih _
          · simp only [hs, if_false]
            simpa [isErrEntry, List.any_cons] using ih st
    cases he : (entries.any isErrEntry) with
    | false =>
      obtain ⟨st1, h1⟩ := (walk2 entries ⟨[], [], 0⟩).mpr he
      simp [h1]
    | true =>
      cases hw : walkRun2 outputDir f entries ⟨[], [], 0⟩ with
      | ok st1 =>
        have := (walk2 entries ⟨[], [], 0⟩).mp ⟨st1, hw⟩
        rw [this] at he
        cases he
      | error e1 => simp [hw]

/-- The envelope phase consumes exactly three tokens and returns the rest of
the stream whenever the second token is the key `"items"` and no token read
fails. -/
theorem readEnvelope_cons (B : List Jtok) :
    readEnvelope (Jtok.lbrace :: Jtok.jstr "items" :: Jtok.lbrack :: B) =
      Except.ok B := rfl

/-! ## Claims -/

/-- Claim C5 (confirmed): `recordMatch` yields a match exactly when the
record's `container-title` value is an array whose first element is a string
that the Target Set enables, and the reported name is that first element;
every other shape (absent field, non-array, empty array, non-string head) is
a non-match.  `recordMatch` is a total function, so no shape can raise an
error. -/
theorem c5_predicate (item : List (String × Json)) :
    ((recordMatch item).isSome = true ↔
      ∃ j rest, lookupField item "container-title" =
          some (Json.jarr (Json.jstr j :: rest)) ∧ isTarget j = true) ∧
    (∀ j, recordMatch item = some j →
      ∃ rest, lookupField item "container-title" =
        some (Json.jarr (Json.jstr j :: rest))) := by
  cases hl : lookupField item "container-title" with
  | none => simp [recordMatch, hl]
  | some v =>
    cases v with
    | null => simp [recordMatch, hl]
    | jbool b => simp [recordMatch, hl]
    | jnum n => simp [recordMatch, hl]
    | jstr s => simp [recordMatch, hl]
    | jobj fls => simp [recordMatch, hl]
    | jarr elems =>
      cases elems with
      | nil => simp [recordMatch, hl]
      | cons first rest0 =>
        cases first with
        | null => simp [recordMatch, hl]
        | jbool b => simp [recordMatch, hl]
        | jnum n => simp [recordMatch, hl]
        | jarr xs => simp [recordMatch, hl]
        | jobj fls => simp [recordMatch, hl]
        | jstr j0 =>
          by_cases ht : isTarget j0 = true <;> simp [recordMatch, hl, ht]

/-- Claim C6 (confirmed): on an archive whose envelope is
`{"items": [r1, ..., rn]}` with well-formed elements, the decoder yields
exactly the n record payloads in array order, and none when the array is
empty (the `items = []` instance). -/
theorem c6_decoder (items : List Json) (f : Nat) (hf : items.length ≤ f) :
    decodeArchive f (envTokens items) =
      Except.ok (items, LoopEnd.completed) := by
  unfold decodeArchive
  rw [readEnvelope_env]
  have h := decodeStream_ok items [Jtok.rbrace] f hf
  simpa [Except.map] using h

/-- Witness for C6 at a two-record archive and at the empty archive. -/
theorem c6_decoder_witness :
    decodeArchive 2 (envTokens [Json.jobj [("DOI", Json.jstr "10.1")], Json.null]) =
      Except.ok ([Json.jobj [("DOI", Json.jstr "10.1")], Json.null],
        LoopEnd.completed) ∧
    decodeArchive 0 (envTokens []) = Except.ok ([], LoopEnd.completed) :=
  ⟨c6_decoder [Json.jobj [("DOI", Json.jstr "10.1")], Json.null] 2 (by decide),
   c6_decoder [] 0 (by decide)⟩

/-- Claim C7 (confirmed): sanitizing the publication name
`"Human Genetics and Genomic Advances"` and the DOI
`"10.1038/s41525-020-0123-4"` yields the relative output path
`Human_Genetics_and_Genomic_Advances/10.1038_s41525-020-0123-4/metadata.json`,
and `writeJSONToFile` places such a record at exactly that path under the
output root. -/
theorem c7_sanitize :
    mdPath "Human Genetics and Genomic Advances" "10.1038/s41525-020-0123-4" =
      "Human_Genetics_and_Genomic_Advances/10.1038_s41525-020-0123-4/metadata.json" ∧
    writeJSONToFile [("DOI", Json.jstr "10.1038/s41525-020-0123-4")]
        "Human Genetics and Genomic Advances" "out" [] =
      Except.ok
        [("out/Human_Genetics_and_Genomic_Advances/10.1038_s41525-020-0123-4/metadata.json",
          Json.jobj [("DOI", Json.jstr "10.1038/s41525-020-0123-4")])] := by
  constructor
  · rfl
  · rfl

/-- Claim C9 (confirmed): File-Tree Sink writes are idempotent.  A successful
write is a deterministic overwrite at the path derived from the record's DOI
and the matched name, so writing the same record again leaves the file tree
unchanged (same path, same content). -/
theorem c9_idempotent (item : List (String × Json)) (journal outputDir : String)
    (fs fs1 : Fs)
    (h : writeJSONToFile item journal outputDir fs = Except.ok fs1) :
    writeJSONToFile item journal outputDir fs1 = Except.ok fs1 ∧
    ∃ doi, doiField item = some doi ∧ doi ≠ "" ∧
      fs1 = fsWrite fs (outputDir ++ "/" ++ mdPath journal doi)
        (Json.jobj item) := by
  unfold writeJSONToFile at h ⊢
  cases hd : doiField item with
  | none =>
    rw [hd] at h
    simp at h
  | some doi =>
    rw [hd] at h
    dsimp only at h
    dsimp only
    by_cases he : doi = ""
    · rw [if_pos he] at h
      simp at h
    · rw [if_neg he] at h
      have h1 : fsWrite fs (outputDir ++ "/" ++ mdPath journal doi)
          (Json.jobj item) = fs1 := by
        injection h
      refine ⟨?_, doi, rfl, he, h1.symm⟩
      rw [if_neg he, ← h1, fsWrite_idem]

/-- Witness for C9: writing a concrete record into the tree it already
produced changes nothing. -/
theorem c9_idempotent_witness :
    writeJSONToFile [("DOI", Json.jstr "10.5/ab")] "Heredity" "out"
        [("out/Heredity/10.5_ab/metadata.json",
          Json.jobj [("DOI", Json.jstr "10.5/ab")])] =
      Except.ok
        [("out/Heredity/10.5_ab/metadata.json",
          Json.jobj [("DOI", Json.jstr "10.5/ab")])] :=
  (c9_idempotent [("DOI", Json.jstr "10.5/ab")] "Heredity" "out" []
    [("out/Heredity/10.5_ab/metadata.json",
      Json.jobj [("DOI", Json.jstr "10.5/ab")])] (by rfl)).1

/-- Claim C10 (confirmed): `initializeJournals` only modifies an empty
`journals` table; on any non-empty table it performs no inserts and leaves
the rows unchanged, and on the empty table it inserts exactly the ten
default journal names. -/
theorem c10_journal_bootstrap (journals : List String) (h : journals ≠ []) :
    initializeJournals journals = journals ∧
    initializeJournals [] = defaultJournals ∧
    defaultJournals.length = 10 := by
  refine ⟨?_, rfl, rfl⟩
  unfold initializeJournals
  rw [if_neg (fun hc => h (List.length_eq_zero.mp hc))]

/-- Witness for C10 at a one-row table. -/
theorem c10_journal_bootstrap_witness :
    initializeJournals ["Heredity"] = ["Heredity"] ∧
    initializeJournals [] = defaultJournals ∧
    defaultJournals.length = 10 :=
  c10_journal_bootstrap ["Heredity"] (by decide)

/-- Counterexample to claim C1: the Relational Sink variant inserts a record
whose `container-title` head `"Nature"` is not in the Target Set, so
"forwarded iff the first container-title entry matches an enabled Target Set
entry" fails for that sink. -/
theorem c1_counterexample :
    processFilePg 3
        (envTokens [Json.jobj [("container-title", Json.jarr [Json.jstr "Nature"])]]) =
      Except.ok ([Json.jobj [("container-title", Json.jarr [Json.jstr "Nature"])]],
        LoopEnd.completed) ∧
    recordMatch [("container-title", Json.jarr [Json.jstr "Nature"])] = none := by
  constructor
  · rfl
  · rfl

/-- Claim C1 as amended: the match-iff-forward invariant holds for the
Console Sink (a record is printed iff it matches) and for the File-Tree Sink
in the sense that a record is handed to the file writer iff it matches (the
writer may still skip a matched record whose DOI is unusable); the
Relational Sink instead receives every successfully decoded record,
unconditionally. -/
theorem c1_amended (records : List (List (String × Json))) (outputDir : String)
    (st : Run2State) (f : Nat) (hf : records.length ≤ f) :
    processFile1 f (envTokens (records.map Json.jobj)) =
      Except.ok ((records.filter (fun r => (recordMatch r).isSome)).map Json.jobj,
        LoopEnd.completed) ∧
    processFile2 outputDir f (envTokens (records.map Json.jobj)) st =
      Except.ok (runItems outputDir records st, LoopEnd.completed) ∧
    (runItems outputDir records st).forwarded =
      st.forwarded ++ records.filter (fun r => (recordMatch r).isSome) ∧
    processFilePg f (envTokens (records.map Json.jobj)) =
      Except.ok (records.map Json.jobj, LoopEnd.completed) := by
  refine ⟨?_, ?_, runItems_forwarded outputDir records st, ?_⟩
  · unfold processFile1
    rw [readEnvelope_env]
    have h := loop1_ok records [Jtok.rbrace] f [] hf
    simpa [Except.map] using h
  · unfold processFile2
    rw [readEnvelope_env]
    have h := loop2_ok outputDir records [Jtok.rbrace] f st hf
    simpa [Except.map] using h
  · unfold processFilePg
    rw [readEnvelope_env]
    have h := pgLoop_ok (records.map Json.jobj) [Jtok.rbrace] f []
      (by simpa using hf)
    simpa [Except.map] using h

/-- Witness for the amended C1: with a matching and a non-matching record,
the console variant emits only the match while the relational variant
inserts both. -/
theorem c1_amended_witness :
    processFile1 2
        (envTokens [Json.jobj [("container-title", Json.jarr [Json.jstr "Heredity"])],
          Json.jobj [("container-title", Json.jarr [Json.jstr "Nature"])]]) =
      Except.ok ([Json.jobj [("container-title", Json.jarr [Json.jstr "Heredity"])]],
        LoopEnd.completed) ∧
    processFilePg 2
        (envTokens [Json.jobj [("container-title", Json.jarr [Json.jstr "Heredity"])],
          Json.jobj [("container-title", Json.jarr [Json.jstr "Nature"])]]) =
      Except.ok ([Json.jobj [("container-title", Json.jarr [Json.jstr "Heredity"])],
        Json.jobj [("container-title", Json.jarr [Json.jstr "Nature"])]],
        LoopEnd.completed) :=
  ⟨(c1_amended [[("container-title", Json.jarr [Json.jstr "Heredity"])],
      [("container-title", Json.jarr [Json.jstr "Nature"])]] "out"
      ⟨[], [], 0⟩ 2 (by decide)).1,
   (c1_amended [[("container-title", Json.jarr [Json.jstr "Heredity"])],
      [("container-title", Json.jarr [Json.jstr "Nature"])]] "out"
      ⟨[], [], 0⟩ 2 (by decide)).2.2.2⟩

/-- Counterexample to claim C2: in the relational variant a record-decode
error does not terminate the archive and hand control back to the Walker;
the loop keeps re-encountering the error (here: the outcome is fuel
exhaustion for every fuel bound, and concretely at fuel 25), because the
decoder never advances past the malformed element. -/
theorem c2_counterexample :
    pgNeverCompletes [Jtok.bad, Jtok.rbrack, Jtok.rbrace] ∧
    processFilePg 25
        [Jtok.lbrace, Jtok.jstr "items", Jtok.lbrack,
          Jtok.bad, Jtok.rbrack, Jtok.rbrace] =
      Except.ok ([], LoopEnd.fuelOut) := by
  constructor
  · intro f acc
    have h := pgLoop_bad f [] [Jtok.rbrack, Jtok.rbrace] acc
    simpa [listToks] using h
  · rfl

/-- Claim C2 as amended: in the console and file-tree variants a
record-decode error is logged with the archive name (the ordinal position is
not part of the log) and terminates processing of that archive without
becoming a fatal error (`processFile` returns success, so the Walker
continues with the next archive); in the relational variant the error is
logged and the loop continues without the decoder advancing past the
malformed element, so the archive run never completes. -/
theorem c2_amended (objs : List (List (String × Json))) (rest : List Jtok)
    (outputDir : String) (st : Run2State) (f : Nat) (hf : objs.length < f) :
    processFile1 f (Jtok.lbrace :: Jtok.jstr "items" :: Jtok.lbrack ::
        (listToks (objs.map Json.jobj) ++ Jtok.bad :: rest)) =
      Except.ok ((objs.filter (fun r => (recordMatch r).isSome)).map Json.jobj,
        LoopEnd.decodeError) ∧
    processFile2 outputDir f (Jtok.lbrace :: Jtok.jstr "items" :: Jtok.lbrack ::
        (listToks (objs.map Json.jobj) ++ Jtok.bad :: rest)) st =
      Except.ok (runItems outputDir objs st, LoopEnd.decodeError) ∧
    pgNeverCompletes (listToks (objs.map Json.jobj) ++ Jtok.bad :: rest) := by
  refine ⟨?_, ?_, ?_⟩
  · unfold processFile1
    rw [readEnvelope_cons]
    have h := loop1_bad objs rest f [] hf
    simpa [Except.map] using h
  · unfold processFile2
    rw [readEnvelope_cons]
    have h := loop2_bad outputDir objs rest f st hf
    simpa [Except.map] using h
  · intro g acc
    exact pgLoop_bad g (objs.map Json.jobj) rest acc

/-- Witness for the amended C2: one good record, then a malformed element.
The console variant emits the good match and stops with a decode error
(returned as success to the Walker); the relational variant never finishes
the archive. -/
theorem c2_amended_witness :
    processFile1 2 (Jtok.lbrace :: Jtok.jstr "items" :: Jtok.lbrack ::
        (listToks ([[("container-title", Json.jarr [Json.jstr "Heredity"])]].map Json.jobj) ++
          Jtok.bad :: [Jtok.rbrack, Jtok.rbrace])) =
      Except.ok ([Json.jobj [("container-title", Json.jarr [Json.jstr "Heredity"])]],
        LoopEnd.decodeError) ∧
    pgNeverCompletes
      (listToks ([[("container-title", Json.jarr [Json.jstr "Heredity"])]].map Json.jobj) ++
        Jtok.bad :: [Jtok.rbrack, Jtok.rbrace]) :=
  ⟨(c2_amended [[("container-title", Json.jarr [Json.jstr "Heredity"])]]
      [Jtok.rbrack, Jtok.rbrace] "out" ⟨[], [], 0⟩ 2 (by decide)).1,
   (c2_amended [[("container-title", Json.jarr [Json.jstr "Heredity"])]]
      [Jtok.rbrack, Jtok.rbrace] "out" ⟨[], [], 0⟩ 2 (by decide)).2.2⟩

/-- Counterexample to claim C3: a traversal error on a path other than the
root also turns the invocation fatal.  Here the root is visited successfully
and a subdirectory fails, yet the exit status is 1. -/
theorem c3_counterexample :
    exitCode1 1 [WalkEntry.file "root" [], WalkEntry.errPath "root/sub"] = 1 ∧
    "root/sub" ≠ "root" := by
  constructor
  · rfl
  · decide

/-- Claim C3 as amended: per-record and per-file processing errors never
affect the exit status (archive contents are arbitrary below), and the
invocation is fatal exactly when the walk reports a traversal error on any
path — the root or any descendant — or, in the file-tree variant, when
creating the output directory fails. -/
theorem c3_amended (f : Nat) (entries : List WalkEntry) (mkdirOk : Bool)
    (outputDir : String) :
    exitCode1 f entries = (if entries.any isErrEntry then 1 else 0) ∧
    exitCode2 mkdirOk outputDir f entries =
      (if mkdirOk then (if entries.any isErrEntry then 1 else 0) else 1) :=
  ⟨exitCode1_char f entries, exitCode2_char mkdirOk outputDir f entries⟩

/-- Counterexample to claim C4: the decoder validates only the `"items"`
key.  An archive whose opening delimiter is an array delimiter, and one
whose third token is a number instead of an array delimiter, are both
accepted without any envelope error. -/
theorem c4_counterexample :
    processFile1 1
        [Jtok.lbrack, Jtok.jstr "items", Jtok.lbrack, Jtok.rbrack, Jtok.rbrack] =
      Except.ok ([], LoopEnd.completed) ∧
    processFile1 1 [Jtok.lbrace, Jtok.jstr "items", Jtok.jnum 5, Jtok.rbrace] =
      Except.ok ([], LoopEnd.completed) := by
  constructor
  · rfl
  · rfl

/-- Claim C4 as amended: the envelope phase consumes exactly three tokens
and fails whenever one of them is missing (short stream) or unreadable, or
when the second token is not the key `"items"`; the first and third tokens
are consumed without validation, so a non-object opening delimiter or a
non-array third token is accepted. -/
theorem c4_amended :
    (∀ ts : List Jtok, ts.length < 3 → ∃ e, readEnvelope ts = Except.error e) ∧
    (∀ (t1 t3 : Jtok) (rest : List Jtok), t1 ≠ Jtok.bad → t3 ≠ Jtok.bad →
      readEnvelope (t1 :: Jtok.jstr "items" :: t3 :: rest) = Except.ok rest) ∧
    (∀ (t1 t2 t3 : Jtok) (rest : List Jtok), t2 ≠ Jtok.jstr "items" →
      ∃ e, readEnvelope (t1 :: t2 :: t3 :: rest) = Except.error e) := by
  refine ⟨?_, ?_, ?_⟩
  · intro ts hlen
    match ts with
    | [] => exact ⟨_, rfl⟩
    | [t1] => cases t1 <;> exact ⟨_, rfl⟩
    | [t1, t2] =>
      cases t1 <;>
        first
          | exact ⟨_, rfl⟩
          | (cases t2 <;>
              first
                | exact ⟨_, rfl⟩
                | (rename_i s
                   by_cases hs : s = "items"
                   · subst hs
                     exact ⟨_, rfl⟩
                   · exact ⟨"expected items key", by simp [readEnvelope, hs]⟩))
  · intro t1 t3 rest h1 h3
    cases t1 <;>
      first
        | exact absurd rfl h1
        | (cases t3 <;>
            first
              | exact absurd rfl h3
              | rfl)
  · intro t1 t2 t3 rest h2
    cases t1 <;>
      first
        | exact ⟨_, rfl⟩
        | (cases t2 <;>
            first
              | exact ⟨_, rfl⟩
              | (rename_i s
                 have hs : ¬ s = "items" := fun hc => h2 (by rw [hc])
                 exact ⟨"expected items key", by simp [readEnvelope, hs]⟩))

/-- Witness for the amended C4: a short stream errs, a malformed pair of
delimiters around a correct key is accepted, and a wrong key errs. -/
theorem c4_amended_witness :
    (∃ e, readEnvelope [Jtok.lbrace] = Except.error e) ∧
    readEnvelope [Jtok.lbrack, Jtok.jstr "items", Jtok.jnum 5] = Except.ok [] ∧
    (∃ e, readEnvelope [Jtok.lbrace, Jtok.jstr "wrong", Jtok.lbrack] =
      Except.error e) :=
  ⟨c4_amended.1 [Jtok.lbrace] (by decide),
   c4_amended.2.1 Jtok.lbrack (Jtok.jnum 5) [] (by decide) (by decide),
   c4_amended.2.2 Jtok.lbrace (Jtok.jstr "wrong") Jtok.lbrack [] (by decide)⟩

/-- The file tree produced by a run is independent of the forwarded list and
warning count the run starts from, and warnings shift additively. -/
theorem runItems_fs_warn (outputDir : String)
    (items : List (List (String × Json))) (fs : Fs)
    (fwd1 fwd2 : List (List (String × Json))) (w1 w2 : Nat) :
    (runItems outputDir items ⟨fs, fwd1, w1⟩).fs =
      (runItems outputDir items ⟨fs, fwd2, w2⟩).fs ∧
    (runItems outputDir items ⟨fs, fwd1, w1⟩).warnings + w2 =
      (runItems outputDir items ⟨fs, fwd2, w2⟩).warnings + w1 := by
  rw [runItems_split outputDir items fs fwd1 w1,
    runItems_split outputDir items fs fwd2 w2]
  dsimp only
  exact ⟨rfl, by omega⟩

/-- Claim C8 (confirmed): a matched record whose `DOI` is absent, non-string
or empty is skipped by the File-Tree Sink with exactly one extra warning and
no change to the file tree, and the remaining records of the archive are
processed exactly as they would have been without it — in particular a later
matched record with a valid DOI is still written. -/
theorem c8_missing_doi (pre post : List (List (String × Json)))
    (r : List (String × Json)) (outputDir : String) (st : Run2State) (f : Nat)
    (hm : (recordMatch r).isSome = true)
    (hd : doiField r = none ∨ doiField r = some "")
    (hf : pre.length + post.length + 1 ≤ f) :
    processFile2 outputDir f (envTokens ((pre ++ r :: post).map Json.jobj)) st =
      Except.ok (runItems outputDir (pre ++ r :: post) st, LoopEnd.completed) ∧
    processFile2 outputDir f (envTokens ((pre ++ post).map Json.jobj)) st =
      Except.ok (runItems outputDir (pre ++ post) st, LoopEnd.completed) ∧
    (runItems outputDir (pre ++ r :: post) st).fs =
      (runItems outputDir (pre ++ post) st).fs ∧
    (runItems outputDir (pre ++ r :: post) st).warnings =
      (runItems outputDir (pre ++ post) st).warnings + 1 := by
  obtain ⟨j, hj⟩ : ∃ j, recordMatch r = some j := by
    cases hr : recordMatch r with
    | none => rw [hr] at hm; cases hm
    | some j => exact ⟨j, rfl⟩
  have hwrite : ∀ fs0 : Fs,
      writeJSONToFile r j outputDir fs0 = Except.error "missing or invalid DOI" := by
    intro fs0
    unfold writeJSONToFile
    rcases hd with hd | hd <;> (rw [hd]; try rfl)
  have hstep : ∀ A : Run2State,
      step2 outputDir A r = ⟨A.fs, A.forwarded ++ [r], A.warnings + 1⟩ := by
    intro A
    unfold step2
    rw [hj]
    dsimp only
    rw [hwrite A.fs]
  have hA : runItems outputDir (pre ++ r :: post) st =
      runItems outputDir post ⟨(runItems outputDir pre st).fs,
        (runItems outputDir pre st).forwarded ++ [r],
        (runItems outputDir pre st).warnings + 1⟩ := by
    rw [runItems_append, runItems_cons, hstep]
  have hB : runItems outputDir (pre ++ post) st =
      runItems outputDir post ⟨(runItems outputDir pre st).fs,
        (runItems outputDir pre st).forwarded,
        (runItems outputDir pre st).warnings⟩ := by
    rw [runItems_append]
  have hcomp := runItems_fs_warn outputDir post (runItems outputDir pre st).fs
    ((runItems outputDir pre st).forwarded ++ [r])
    (runItems outputDir pre st).forwarded
    ((runItems outputDir pre st).warnings + 1)
    (runItems outputDir pre st).warnings
  refine ⟨?_, ?_, ?_, ?_⟩
  · unfold processFile2
    rw [readEnvelope_env]
    have h := loop2_ok outputDir (pre ++ r :: post) [Jtok.rbrace] f st
      (by simp; omega)
    simpa [Except.map] using h
  · unfold processFile2
    rw [readEnvelope_env]
    have h := loop2_ok outputDir (pre ++ post) [Jtok.rbrace] f st
      (by simp; omega)
    simpa [Except.map] using h
  · rw [hA, hB]
    exact hcomp.1
  · rw [hA, hB]
    omega

/-- Witness for C8: a matched record without a `DOI` followed by a matched
record with one; the file tree ends up as if the bad record were absent and
exactly one warning is logged. -/
theorem c8_missing_doi_witness :
    (runItems "out" [[("container-title", Json.jarr [Json.jstr "Human Genomics"])],
        [("container-title", Json.jarr [Json.jstr "Heredity"]),
          ("DOI", Json.jstr "10.77/x")]] ⟨[], [], 0⟩).fs =
      (runItems "out" [[("container-title", Json.jarr [Json.jstr "Heredity"]),
          ("DOI", Json.jstr "10.77/x")]] ⟨[], [], 0⟩).fs ∧
    (runItems "out" [[("container-title", Json.jarr [Json.jstr "Human Genomics"])],
        [("container-title", Json.jarr [Json.jstr "Heredity"]),
          ("DOI", Json.jstr "10.77/x")]] ⟨[], [], 0⟩).warnings =
      (runItems "out" [[("container-title", Json.jarr [Json.jstr "Heredity"]),
          ("DOI", Json.jstr "10.77/x")]] ⟨[], [], 0⟩).warnings + 1 :=
  ⟨(c8_missing_doi [] [[("container-title", Json.jarr [Json.jstr "Heredity"]),
      ("DOI", Json.jstr "10.77/x")]]
      [("container-title", Json.jarr [Json.jstr "Human Genomics"])]
      "out" ⟨[], [], 0⟩ 2 rfl (Or.inl rfl) (by decide)).2.2.1,
   (c8_missing_doi [] [[("container-title", Json.jarr [Json.jstr "Heredity"]),
      ("DOI", Json.jstr "10.77/x")]]
      [("container-title", Json.jarr [Json.jstr "Human Genomics"])]
      "out" ⟨[], [], 0⟩ 2 rfl (Or.inl rfl) (by decide)).2.2.2⟩

end LangGen
